import Mathlib

/-!
Verification of the resource-deduplication and dependency-tracking core of
gltfio's `FFilamentAsset` (libs/gltfio/src/FFilamentAsset.h).

Shallow embedding conventions:
* engine pointers (VertexBuffer*, IndexBuffer*, MaterialInstance*, Texture*,
  cgltf_mesh*, Entity) are modelled as `Nat` handles; `intptr_t` material keys
  as `Int` (0 plays the role of the null material pointer);
* nullable pointers are `Option`;
* the `tsl::robin_map` caches are modelled as association lists;
* the components whose implementations are not part of the inspected source
  (DependencyGraph.cpp, the AssetLoader cache-population logic,
  releaseSourceData) are modelled from the specification and are marked
  `Modelled from the spec:` in their doc comments.
-/

set_option autoImplicit false

namespace Gltfio

/-- Generic association-list lookup, the model of `tsl::robin_map` lookup. -/
def lookupA {κ ν : Type} [DecidableEq κ] : List (κ × ν) → κ → Option ν
  | [], _ => none
  | (k, v) :: t, k' => if k = k' then some v else lookupA t k'

/-- Generic association-list update: overwrite the binding of `k`, appending a
fresh binding when the key is absent. -/
def setA {κ ν : Type} [DecidableEq κ] : List (κ × ν) → κ → ν → List (κ × ν)
  | [], k, v => [(k, v)]
  | (k', v') :: t, k, v => if k' = k then (k, v) :: t else (k', v') :: setA t k v

/-- Resource handle (a `filament::Texture*` or buffer pointer). -/
abbrev Res := Nat

/-- Owner handle: a renderable entity or a material-parameter owner
(the `renderable_or_param_owner` of the spec). -/
abbrev Owner := Nat

/-- Modelled from the spec: the per-resource states of DependencyGraph
(DependencyGraph.h/.cpp are not part of the inspected source).  Spec section
4.3 lists `{unregistered, pending, populated}`; `unregistered` is the absence
of a status binding.  `markFailed` "behaves like `markPopulated` for
graph-unblocking purposes", i.e. it also moves the resource to `populated`
(populated-with-fallback); the degradation is flagged on the affected
renderables, not on the resource. -/
inductive ResStatus where
  | pending
  | populated
deriving DecidableEq, Repr

/-- Modelled from the spec: the DependencyGraph state
(`mDependencyGraph` field of FFilamentAsset; implementation not in the
inspected source).  `edges` are the resource → owner dependency edges tagged
with the material parameter name; `readyQueue` is the queue of renderables
that became ready and have not been drained yet; `readySet` records every
owner that has ever become ready; `degraded` records the owners flagged by
`markFailed`. -/
structure DependencyGraph where
  edges : List (Res × Owner × String)
  status : List (Res × ResStatus)
  readyQueue : List Owner
  readySet : List Owner
  degraded : List Owner
deriving DecidableEq, Repr

/-- The graph at the start of a load session. -/
def DependencyGraph.empty : DependencyGraph := ⟨[], [], [], [], []⟩

/-- A resource counts as resolved when it has been marked populated
(possibly with fallback). -/
def DependencyGraph.resolved (g : DependencyGraph) (r : Res) : Bool :=
  lookupA g.status r = some ResStatus.populated

/-- The resources an owner has a registered edge to. -/
def DependencyGraph.deps (g : DependencyGraph) (o : Owner) : List Res :=
  (g.edges.filter (fun e => decide (e.2.1 = o))).map (fun e => e.1)

/-- An owner is fully resolved when every resource it depends on is. -/
def DependencyGraph.allResolved (g : DependencyGraph) (o : Owner) : Bool :=
  (g.deps o).all (fun r => g.resolved r)

/-- The distinct owners that have an edge from resource `r`. -/
def DependencyGraph.ownersOf (g : DependencyGraph) (r : Res) : List Owner :=
  ((g.edges.filter (fun e => decide (e.1 = r))).map (fun e => e.2.1)).dedup

/-- Modelled from the spec: `addEdge(resource, renderable_or_param_owner,
paramName)` registers a dependency edge; a resource seen for the first time
becomes `pending`; a resource that is already populated keeps its status (the
edge is recorded for bookkeeping but does not block readiness). -/
def DependencyGraph.addEdge (g : DependencyGraph) (r : Res) (o : Owner) (p : String) :
    DependencyGraph :=
  { g with
    edges := g.edges ++ [(r, o, p)]
    status :=
      match lookupA g.status r with
      | some _ => g.status
      | none => g.status ++ [(r, ResStatus.pending)] }

/-- Modelled from the spec: shared core of `markPopulated` and `markFailed`.
The resource moves to `populated`; every owner with an edge from it whose
dependency set is now fully resolved, and which was not already ready,
becomes ready and is enqueued for retrieval; when `fail` is set the affected
owners are additionally flagged as degraded. -/
def DependencyGraph.markResolved (g : DependencyGraph) (r : Res) (fail : Bool) :
    DependencyGraph :=
  let st := setA g.status r ResStatus.populated
  let g' : DependencyGraph := { g with status := st }
  let affected := g.ownersOf r
  let newlyReady := affected.filter (fun o => g'.allResolved o && decide (o ∉ g.readySet))
  { edges := g.edges
    status := st
    readyQueue := g.readyQueue ++ newlyReady
    readySet := g.readySet ++ newlyReady
    degraded := if fail then g.degraded ++ affected else g.degraded }

/-- Modelled from the spec: `markPopulated(resource)`. -/
def DependencyGraph.markPopulated (g : DependencyGraph) (r : Res) : DependencyGraph :=
  g.markResolved r false

/-- Modelled from the spec: `markFailed(resource)`: unblocks like
`markPopulated` and flags the affected renderables as degraded. -/
def DependencyGraph.markFailed (g : DependencyGraph) (r : Res) : DependencyGraph :=
  g.markResolved r true

/-- Modelled from the spec: `popRenderables(entities, count)` drains up to
`count` ready renderables into caller storage (returned as the first
component; its length is the returned count) and removes them from the ready
queue. -/
def DependencyGraph.popRenderables (g : DependencyGraph) (count : Nat) :
    List Owner × DependencyGraph :=
  (g.readyQueue.take count, { g with readyQueue := g.readyQueue.drop count })

/-- The mutating operations of the DependencyGraph interface. -/
inductive GraphOp where
  | addEdge (r : Res) (o : Owner) (p : String)
  | markPopulated (r : Res)
  | markFailed (r : Res)
  | pop (n : Nat)
deriving DecidableEq, Repr

/-- Whether an operation is an `addEdge` (used to split a trace into the
single-threaded graph walk and the asynchronous population phase). -/
def GraphOp.isAddEdge : GraphOp → Bool
  | .addEdge _ _ _ => true
  | _ => false

/-- One step of the graph interface; the second component is the list of
renderables handed to the caller by this step. -/
def applyOp (g : DependencyGraph) : GraphOp → DependencyGraph × List Owner
  | .addEdge r o p => (g.addEdge r o p, [])
  | .markPopulated r => (g.markPopulated r, [])
  | .markFailed r => (g.markFailed r, [])
  | .pop n =>
    let res := g.popRenderables n
    (res.2, res.1)

/-- Run a list of graph operations, accumulating everything handed to the
caller by the `pop` steps. -/
def runOps (g : DependencyGraph) : List GraphOp → DependencyGraph × List Owner
  | [] => (g, [])
  | op :: t =>
    let s := applyOp g op
    let rest := runOps s.1 t
    (rest.1, s.2 ++ rest.2)

/-- Example graph for the two-texture scenario: renderable 7 depends on the
textures 10 and 11. -/
def gTwoTex : DependencyGraph :=
  (DependencyGraph.empty.addEdge 10 7 "baseColorMap").addEdge 11 7 "normalMap"

/-- Delivery bookkeeping for one owner `ren`: `rs` is the set of owners that
have ever become ready, `q` the current ready queue, `c` how many times `ren`
has been handed to the caller so far.  An owner that has not become ready was
never delivered nor enqueued; an owner that has become ready is delivered or
enqueued exactly once in total. -/
def OnceInv (ren : Owner) (rs q : List Owner) (c : Nat) : Prop :=
  (ren ∈ rs → c + q.count ren = 1) ∧ (ren ∉ rs → c = 0 ∧ q.count ren = 0)

/-- Example walk phase for the delivery theorem: renderable 7 acquires edges
from the resources 0 and 1. -/
def wDeliver : List GraphOp :=
  [GraphOp.addEdge 0 7 "baseColorMap", GraphOp.addEdge 1 7 "normalMap"]

/-- Example population phase for the delivery theorem: resource 0 is
populated, resource 1 fails and is marked with fallback. -/
def mDeliver : List GraphOp :=
  [GraphOp.markPopulated 0, GraphOp.pop 5, GraphOp.markFailed 1]

/-- Object-space bounding box (`filament::Aabb`), coordinates abstracted to
integers. -/
structure Aabb where
  lo : Int × Int × Int
  hi : Int × Int × Int
deriving DecidableEq, Repr

/-- A MeshCache entry element: a reference to a Filament VertexBuffer and
IndexBuffer (the index buffer is null for unindexed sub-primitives), plus the
object-space bounding box and the UV-set remapping (`UvMap`, modelled as a
list of hardware UV-set indices). -/
structure Primitive where
  vertices : Nat
  indices : Option Nat
  aabb : Aabb
  uvmap : List Nat
deriving DecidableEq, Repr

/-- One sub-primitive of a glTF mesh definition, as far as the MeshCache is
concerned: whether it is indexed, and the data the created primitive derives
from it. -/
structure SubPrimDef where
  indexed : Bool
  aabb : Aabb
  uvmap : List Nat
deriving DecidableEq, Repr

/-- A glTF mesh definition: its list of sub-primitives in source order. -/
abbrev MeshDef := List SubPrimDef

/-- Modelled from the spec: on a MeshCache miss the orchestrator
(AssetLoader.cpp, not in the inspected source) creates one GPU vertex buffer
per sub-primitive and one index buffer per indexed sub-primitive, in source
sub-primitive order; `next` is the fresh-handle supply. -/
def createPrimitives : MeshDef → Nat → List Primitive × Nat
  | [], next => ([], next)
  | sp :: t, next =>
    let ib : Option Nat := if sp.indexed then some (next + 1) else none
    let next1 : Nat := if sp.indexed then next + 2 else next + 1
    let rest := createPrimitives t next1
    (⟨next, ib, sp.aabb, sp.uvmap⟩ :: rest.1, rest.2)

/-- The MeshCache (`tsl::robin_map<const cgltf_mesh*, std::vector<Primitive>>`,
keyed by mesh-definition identity) together with the fresh-handle supply of
the load session. -/
structure MeshLoadState where
  mMeshCache : List (Nat × List Primitive)
  nextHandle : Nat
deriving DecidableEq, Repr

/-- Modelled from the spec: `GeometryCache.getOrCreate(meshDefinition)`. On a
hit the cached primitive list is returned with no side effects; on a miss the
orchestrator creates the buffers and the cache stores them. `doc` maps a mesh
identity to its definition in the source document. -/
def meshGetOrCreate (doc : Nat → MeshDef) (st : MeshLoadState) (mesh : Nat) :
    List Primitive × MeshLoadState :=
  match lookupA st.mMeshCache mesh with
  | some prims => (prims, st)
  | none =>
    let created := createPrimitives (doc mesh) st.nextHandle
    (created.1, ⟨st.mMeshCache ++ [(mesh, created.1)], created.2⟩)

/-- The graph walk restricted to its MeshCache effect: one `getOrCreate` per
node mesh reference, in node order. -/
def loadMeshes (doc : Nat → MeshDef) (st : MeshLoadState) :
    List Nat → List (List Primitive) × MeshLoadState
  | [] => ([], st)
  | mesh :: t =>
    let r := meshGetOrCreate doc st mesh
    let rest := loadMeshes doc r.2 t
    (r.1 :: rest.1, rest.2)

/-- Example single-mesh document for the MeshCache witness. -/
def docMesh : Nat → MeshDef :=
  fun _ => [⟨true, ⟨(0, 0, 0), (1, 1, 1)⟩, [0, 1]⟩, ⟨false, ⟨(0, 0, 0), (2, 2, 2)⟩, [0]⟩]

/-- A MatInstanceCache entry: one `filament::MaterialInstance` handle plus the
UvMap shared by every primitive using the material (the source field is named
`instance`, a reserved word here). -/
structure MaterialEntry where
  matInstance : Nat
  uvmap : List Nat
deriving DecidableEq, Repr

/-- The MatInstanceCache (`tsl::robin_map<intptr_t, MaterialEntry>`, keyed by
material-definition pointer identity cast to `intptr_t`; the null/default
material is the key 0) together with the fresh-instance supply of the
material provider. -/
structure MatLoadState where
  mMatInstanceCache : List (Int × MaterialEntry)
  nextInstance : Nat
deriving DecidableEq, Repr

/-- Modelled from the spec: `MaterialCache.getOrCreate(materialDefinition)`.
Key is definition identity (`intptr_t`); the null/default material definition
(key 0) is a valid distinct key. On a miss the orchestrator requests a fresh
material instance from the material provider and stores the UV remap
(`uvOf`, computed from the definition) alongside. -/
def matGetOrCreate (uvOf : Int → List Nat) (st : MatLoadState) (key : Int) :
    MaterialEntry × MatLoadState :=
  match lookupA st.mMatInstanceCache key with
  | some e => (e, st)
  | none =>
    let e : MaterialEntry := ⟨st.nextInstance, uvOf key⟩
    (e, ⟨st.mMatInstanceCache ++ [(key, e)], st.nextInstance + 1⟩)

/-- The graph walk restricted to its MatInstanceCache effect: one
`getOrCreate` per primitive material reference, in walk order. -/
def loadMaterials (uvOf : Int → List Nat) (st : MatLoadState) :
    List Int → List MaterialEntry × MatLoadState
  | [] => ([], st)
  | key :: t =>
    let r := matGetOrCreate uvOf st key
    let rest := loadMaterials uvOf r.2 t
    (r.1 :: rest.1, rest.2)

/-- Example UV-remap assignment for the MatInstanceCache witness. -/
def uvExample : Int → List Nat := fun _ => [0, 1]

/-- A TextureSlot: a connection between a source texture and a
MaterialInstance parameter (`struct TextureSlot` of FFilamentAsset.h; the
`TextureSampler` is abstracted to a handle). -/
structure TextureSlot where
  texture : Nat
  materialInstance : Nat
  materialParameter : String
  sampler : Nat
  srgb : Bool
deriving DecidableEq, Repr

/-- The engine-level material-parameter bindings relevant to `bindTexture`:
for each (material instance, parameter name) pair the bound texture and
sampler. -/
structure AssetBindState where
  params : List ((Nat × String) × (Nat × Nat))
  graph : DependencyGraph
deriving DecidableEq, Repr

/-- `MaterialInstance::setParameter(name, texture, sampler)` restricted to
texture parameters: overwrite the binding for (instance, parameter). -/
def setParameter (l : List ((Nat × String) × (Nat × Nat))) (mi : Nat) (p : String)
    (tex smp : Nat) : List ((Nat × String) × (Nat × Nat)) :=
  setA l (mi, p) (tex, smp)

/-- The engine-parameter half of `bindTexture`: line 222 of
FFilamentAsset.h. -/
def setParamStep (a : AssetBindState) (tb : TextureSlot) (texture : Nat) : AssetBindState :=
  { a with params := (setParameter a.params tb.materialInstance tb.materialParameter
      texture tb.sampler) }

/-- The dependency-edge half of `bindTexture`: line 223 of
FFilamentAsset.h. -/
def addEdgeStep (a : AssetBindState) (tb : TextureSlot) (texture : Nat) : AssetBindState :=
  { a with graph := a.graph.addEdge texture tb.materialInstance tb.materialParameter }

/-- `FFilamentAsset::bindTexture(tb, texture)`: sets the engine-level material
parameter, then registers the dependency edge in the same call. -/
def bindTexture (a : AssetBindState) (tb : TextureSlot) (texture : Nat) : AssetBindState :=
  { params := (setParameter a.params tb.materialInstance tb.materialParameter
      texture tb.sampler)
    graph := a.graph.addEdge texture tb.materialInstance tb.materialParameter }

/-- The entity lists of FFilamentAsset relevant to the entity getters. -/
structure FAssetEntities where
  mEntities : List Nat
  mLightEntities : List Nat
  mCameraEntities : List Nat
deriving DecidableEq, Repr

/-- `FFilamentAsset::getEntityCount`. -/
def getEntityCount (a : FAssetEntities) : Nat := a.mEntities.length

/-- `FFilamentAsset::getEntities`: `mEntities.empty() ? nullptr :
mEntities.data()`; the non-null pointer to the array of `getEntityCount()`
entities is modelled as `some` of the list. -/
def getEntities (a : FAssetEntities) : Option (List Nat) :=
  if a.mEntities.isEmpty then none else some a.mEntities

/-- `FFilamentAsset::getLightEntityCount`. -/
def getLightEntityCount (a : FAssetEntities) : Nat := a.mLightEntities.length

/-- `FFilamentAsset::getLightEntities`. -/
def getLightEntities (a : FAssetEntities) : Option (List Nat) :=
  if a.mLightEntities.isEmpty then none else some a.mLightEntities

/-- `FFilamentAsset::getCameraEntityCount`. -/
def getCameraEntityCount (a : FAssetEntities) : Nat := a.mCameraEntities.length

/-- `FFilamentAsset::getCameraEntities`. -/
def getCameraEntities (a : FAssetEntities) : Option (List Nat) :=
  if a.mCameraEntities.isEmpty then none else some a.mCameraEntities

/-- The reference-counted source data (`struct SourceAsset`): the parsed
cgltf hierarchy pointer, abstracted to a handle. -/
structure SourceAsset where
  hierarchy : Nat
deriving DecidableEq, Repr

/-- The `SourceHandle mSourceAsset` field of FFilamentAsset: `none` models a
reset `std::shared_ptr` (the asset no longer holds the handle). -/
structure AssetSourceState where
  mSourceAsset : Option SourceAsset
deriving DecidableEq, Repr

/-- `FFilamentAsset::getSourceAsset`:
`mSourceAsset.get() ? mSourceAsset->hierarchy : nullptr`. -/
def getSourceAsset (a : AssetSourceState) : Option Nat :=
  match a.mSourceAsset with
  | some s => some s.hierarchy
  | none => none

/-- Modelled from the spec: `releaseSourceData` (implemented in
AssetLoader.cpp, not in the inspected source) frees the transient source data
and releases the asset's reference-counted source handle. -/
def releaseSourceData (_ : AssetSourceState) : AssetSourceState :=
  { mSourceAsset := none }

theorem lookupA_setA_self {κ ν : Type} [DecidableEq κ] (l : List (κ × ν)) (k : κ) (v : ν) :
    lookupA (setA l k v) k = some v := by
  induction l with
  | nil => simp [setA, lookupA]
  | cons h t ih =>
    obtain ⟨k', v'⟩ := h
    by_cases hk : k' = k
    · simp [setA, hk, lookupA]
    · simp [setA, hk, lookupA, ih]

theorem lookupA_setA_ne {κ ν : Type} [DecidableEq κ] (l : List (κ × ν)) (k k' : κ) (v : ν)
    (h : k' ≠ k) : lookupA (setA l k v) k' = lookupA l k' := by
  induction l with
  | nil => simp [setA, lookupA, Ne.symm h]
  | cons hd t ih =>
    obtain ⟨k₀, v₀⟩ := hd
    by_cases hk : k₀ = k
    · subst hk
      simp [setA, lookupA, Ne.symm h]
    · simp only [setA, if_neg hk, lookupA]
      by_cases hk' : k₀ = k'
      · simp [hk']
      · simp [hk', ih]

theorem lookupA_append_some {κ ν : Type} [DecidableEq κ] (l l' : List (κ × ν)) (k : κ) (v : ν)
    (h : lookupA l k = some v) : lookupA (l ++ l') k = some v := by
  induction l with
  | nil => simp [lookupA] at h
  | cons hd t ih =>
    obtain ⟨k₀, v₀⟩ := hd
    by_cases hk : k₀ = k
    · simpa [lookupA, hk] using h
    · simp only [lookupA, if_neg hk] at h
      simpa [lookupA, hk] using ih h

theorem lookupA_append_none {κ ν : Type} [DecidableEq κ] (l l' : List (κ × ν)) (k : κ)
    (h : lookupA l k = none) : lookupA (l ++ l') k = lookupA l' k := by
  induction l with
  | nil => simp
  | cons hd t ih =>
    obtain ⟨k₀, v₀⟩ := hd
    by_cases hk : k₀ = k
    · simp [lookupA, hk] at h
    · simp only [lookupA, if_neg hk] at h
      simpa [lookupA, hk] using ih h

theorem lookupA_mem {κ ν : Type} [DecidableEq κ] (l : List (κ × ν)) (k : κ) (v : ν)
    (h : lookupA l k = some v) : (k, v) ∈ l := by
  induction l with
  | nil => simp [lookupA] at h
  | cons hd t ih =>
    obtain ⟨k₀, v₀⟩ := hd
    by_cases hk : k₀ = k
    · subst hk
      simp [lookupA] at h
      simp [h]
    · simp only [lookupA, if_neg hk] at h
      exact List.mem_cons_of_mem _ (ih h)

theorem lookupA_none_not_mem_fst {κ ν : Type} [DecidableEq κ] (l : List (κ × ν)) (k : κ)
    (h : lookupA l k = none) : k ∉ l.map Prod.fst := by
  induction l with
  | nil => simp
  | cons hd t ih =>
    obtain ⟨k₀, v₀⟩ := hd
    by_cases hk : k₀ = k
    · simp [lookupA, hk] at h
    · simp only [lookupA, if_neg hk] at h
      simp [ih h, Ne.symm hk]

theorem markResolved_edges (g : DependencyGraph) (r : Res) (f : Bool) :
    (g.markResolved r f).edges = g.edges := rfl

theorem markResolved_status (g : DependencyGraph) (r : Res) (f : Bool) :
    (g.markResolved r f).status = setA g.status r ResStatus.populated := rfl

theorem markResolved_readySet (g : DependencyGraph) (r : Res) (f : Bool) :
    (g.markResolved r f).readySet =
      g.readySet ++ (g.ownersOf r).filter
        (fun o => DependencyGraph.allResolved { g with status := setA g.status r ResStatus.populated } o
          && decide (o ∉ g.readySet)) := rfl

theorem markResolved_readyQueue (g : DependencyGraph) (r : Res) (f : Bool) :
    (g.markResolved r f).readyQueue =
      g.readyQueue ++ (g.ownersOf r).filter
        (fun o => DependencyGraph.allResolved { g with status := setA g.status r ResStatus.populated } o
          && decide (o ∉ g.readySet)) := rfl

theorem addEdge_status_cases (g : DependencyGraph) (r : Res) (o : Owner) (p : String) (x : Res) :
    lookupA (g.addEdge r o p).status x = lookupA g.status x ∨
      (lookupA g.status x = none ∧
        lookupA (g.addEdge r o p).status x = some ResStatus.pending) := by
  simp only [DependencyGraph.addEdge]
  cases hr : lookupA g.status r with
  | some s => exact Or.inl rfl
  | none =>
    by_cases hx : x = r
    · subst hx
      right
      refine ⟨hr, ?_⟩
      rw [lookupA_append_none _ _ _ hr]
      simp [lookupA]
    · left
      cases hl : lookupA g.status x with
      | some s => exact lookupA_append_some _ _ _ _ hl
      | none =>
        rw [lookupA_append_none _ _ _ hl]
        simp [lookupA, Ne.symm hx, hl]

/-- Over a single operation, a populated resource stays populated. -/
theorem applyOp_status_monotone (g : DependencyGraph) (op : GraphOp) (x : Res)
    (h : lookupA g.status x = some ResStatus.populated) :
    lookupA (applyOp g op).1.status x = some ResStatus.populated := by
  cases op with
  | addEdge r o p =>
    rcases addEdge_status_cases g r o p x with hc | hc
    · simpa [applyOp, hc] using h
    · rw [h] at hc
      exact absurd hc.1 (by simp)
  | markPopulated r =>
    by_cases hx : x = r
    · subst hx
      simp [applyOp, DependencyGraph.markPopulated, markResolved_status, lookupA_setA_self]
    · simp [applyOp, DependencyGraph.markPopulated, markResolved_status,
        lookupA_setA_ne _ _ _ _ hx, h]
  | markFailed r =>
    by_cases hx : x = r
    · subst hx
      simp [applyOp, DependencyGraph.markFailed, markResolved_status, lookupA_setA_self]
    · simp [applyOp, DependencyGraph.markFailed, markResolved_status,
        lookupA_setA_ne _ _ _ _ hx, h]
  | pop n => simpa [applyOp, DependencyGraph.popRenderables] using h

/-- Over a single operation, an owner that has become ready stays ready. -/
theorem applyOp_readySet_monotone (g : DependencyGraph) (op : GraphOp) (o : Owner)
    (h : o ∈ g.readySet) : o ∈ (applyOp g op).1.readySet := by
  cases op with
  | addEdge r o' p => simpa [applyOp, DependencyGraph.addEdge] using h
  | markPopulated r =>
    simp only [applyOp, DependencyGraph.markPopulated, markResolved_readySet]
    exact List.mem_append_left _ h
  | markFailed r =>
    simp only [applyOp, DependencyGraph.markFailed, markResolved_readySet]
    exact List.mem_append_left _ h
  | pop n => simpa [applyOp, DependencyGraph.popRenderables] using h

theorem runOps_status_monotone (ops : List GraphOp) (g : DependencyGraph) (x : Res)
    (h : lookupA g.status x = some ResStatus.populated) :
    lookupA (runOps g ops).1.status x = some ResStatus.populated := by
  induction ops generalizing g with
  | nil => simpa [runOps] using h
  | cons op t ih =>
    simp only [runOps]
    exact ih _ (applyOp_status_monotone g op x h)

theorem runOps_readySet_monotone (ops : List GraphOp) (g : DependencyGraph) (o : Owner)
    (h : o ∈ g.readySet) : o ∈ (runOps g ops).1.readySet := by
  induction ops generalizing g with
  | nil => simpa [runOps] using h
  | cons op t ih =>
    simp only [runOps]
    exact ih _ (applyOp_readySet_monotone g op o h)

/-- C3: readiness is monotonic: once `markPopulated(R)` has made resource `R`
populated, no subsequent sequence of DependencyGraph operations (`addEdge`,
`markPopulated`, `markFailed`, `popRenderables`) returns `R` to a
non-populated state, and a renderable that has become ready never becomes
un-ready. -/
theorem readiness_monotonic (g : DependencyGraph) (ops : List GraphOp) (R : Res) (ren : Owner)
    (hR : lookupA g.status R = some ResStatus.populated)
    (hren : ren ∈ g.readySet) :
    lookupA (runOps g ops).1.status R = some ResStatus.populated ∧
      ren ∈ (runOps g ops).1.readySet :=
  ⟨runOps_status_monotone ops g R hR, runOps_readySet_monotone ops g ren hren⟩

/-- Witness for C3 at a concrete graph: one edge from resource 0 to
renderable 7, the resource marked populated, followed by an arbitrary mix of
further operations. -/
theorem readiness_monotonic_witness :
    lookupA (runOps ((DependencyGraph.empty.addEdge 0 7 "baseColorMap").markPopulated 0)
        [GraphOp.markFailed 1, GraphOp.pop 1, GraphOp.addEdge 2 7 "normalMap",
         GraphOp.markPopulated 2]).1.status 0 = some ResStatus.populated ∧
      7 ∈ (runOps ((DependencyGraph.empty.addEdge 0 7 "baseColorMap").markPopulated 0)
        [GraphOp.markFailed 1, GraphOp.pop 1, GraphOp.addEdge 2 7 "normalMap",
         GraphOp.markPopulated 2]).1.readySet :=
  readiness_monotonic _ _ 0 7 (by decide) (by decide)

/-- C5: `popRenderables` drains at most `count` ready renderables, removing
each drained renderable from the ready queue; a repeated call drains the
remainder; on an empty ready queue it returns 0 renderables and leaves the
graph unchanged. -/
theorem popRenderables_drains (g : DependencyGraph) (n : Nat) :
    ((g.popRenderables n).1.length ≤ n)
  ∧ ((g.popRenderables n).1 ++ ((g.popRenderables n).2).readyQueue = g.readyQueue)
  ∧ (∀ m, (((g.popRenderables n).2).popRenderables m).1 = (g.readyQueue.drop n).take m)
  ∧ (g.readyQueue = [] → (g.popRenderables n).1 = [] ∧ (g.popRenderables n).2 = g) := by
  refine ⟨?_, ?_, ?_, ?_⟩
  · simp [DependencyGraph.popRenderables]
  · simp [DependencyGraph.popRenderables]
  · intro m
    simp [DependencyGraph.popRenderables]
  · intro h
    cases g with
    | mk e s q rs d => simp_all [DependencyGraph.popRenderables]

/-- Witness for C5 at a concrete graph with an empty ready queue. -/
theorem popRenderables_drains_witness :
    (DependencyGraph.empty.popRenderables 3).1 = [] ∧
      (DependencyGraph.empty.popRenderables 3).2 = DependencyGraph.empty :=
  (popRenderables_drains DependencyGraph.empty 3).2.2.2 rfl

/-- C8: `markFailed(resource)` has the same graph-unblocking effect as
`markPopulated(resource)` — identical edges, resource statuses, ready queue
and ready set — and additionally flags the owners affected by the resource as
degraded, which `markPopulated` does not. -/
theorem markFailed_unblocks_like_markPopulated (g : DependencyGraph) (r : Res) :
    (g.markFailed r).edges = (g.markPopulated r).edges
  ∧ (g.markFailed r).status = (g.markPopulated r).status
  ∧ (g.markFailed r).readyQueue = (g.markPopulated r).readyQueue
  ∧ (g.markFailed r).readySet = (g.markPopulated r).readySet
  ∧ (g.markFailed r).degraded = g.degraded ++ g.ownersOf r
  ∧ (g.markPopulated r).degraded = g.degraded :=
  ⟨rfl, rfl, rfl, rfl, rfl, rfl⟩

theorem mem_deps (g : DependencyGraph) (o : Owner) (x : Res) :
    x ∈ g.deps o ↔ ∃ p, (x, o, p) ∈ g.edges := by
  simp only [DependencyGraph.deps, List.mem_map, List.mem_filter, decide_eq_true_eq]
  constructor
  · rintro ⟨⟨a, b, c⟩, ⟨he, ho⟩, hx⟩
    subst ho
    subst hx
    exact ⟨c, he⟩
  · rintro ⟨p, hp⟩
    exact ⟨(x, o, p), ⟨hp, rfl⟩, rfl⟩

theorem mem_ownersOf (g : DependencyGraph) (r : Res) (o : Owner) :
    o ∈ g.ownersOf r ↔ ∃ p, (r, o, p) ∈ g.edges := by
  simp only [DependencyGraph.ownersOf, List.mem_dedup, List.mem_map, List.mem_filter,
    decide_eq_true_eq]
  constructor
  · rintro ⟨⟨a, b, c⟩, ⟨he, hr⟩, ho⟩
    subst hr
    subst ho
    exact ⟨c, he⟩
  · rintro ⟨p, hp⟩
    exact ⟨(r, o, p), ⟨hp, rfl⟩, rfl⟩

theorem markResolved_deps (g : DependencyGraph) (r : Res) (f : Bool) (o : Owner) :
    (g.markResolved r f).deps o = g.deps o := rfl

theorem resolved_markResolved_self (g : DependencyGraph) (r : Res) (f : Bool) :
    (g.markResolved r f).resolved r = true := by
  simp [DependencyGraph.resolved, markResolved_status, lookupA_setA_self]

theorem resolved_markResolved_ne (g : DependencyGraph) (r x : Res) (f : Bool) (h : x ≠ r) :
    (g.markResolved r f).resolved x = g.resolved x := by
  simp [DependencyGraph.resolved, markResolved_status, lookupA_setA_ne _ _ _ _ h]

theorem allResolved_iff (g : DependencyGraph) (o : Owner) :
    g.allResolved o = true ↔ ∀ x ∈ g.deps o, g.resolved x = true := by
  simp [DependencyGraph.allResolved, List.all_eq_true]

/-- After populating only the first of the two resources an owner depends on,
the owner is not ready and the ready queue is unchanged as far as the owner
is concerned; after populating the second it is ready and was enqueued
exactly once. -/
theorem two_mark_core (g : DependencyGraph) (ren : Owner) (A B : Res)
    (hAB : A ≠ B)
    (hdeps : ∀ x, x ∈ g.deps ren ↔ (x = A ∨ x = B))
    (hB : lookupA g.status B = some ResStatus.pending)
    (hready : ren ∉ g.readySet)
    (hqueue : ren ∉ g.readyQueue) :
    ren ∉ (g.markPopulated A).readySet
  ∧ ren ∈ ((g.markPopulated A).markPopulated B).readySet
  ∧ ((g.markPopulated A).markPopulated B).readyQueue.count ren = 1 := by
  have hBA : B ≠ A := Ne.symm hAB
  -- the owner is not resolved after the first mark: B is still pending
  have hBdep : B ∈ g.deps ren := (hdeps B).mpr (Or.inr rfl)
  have hnotall : (DependencyGraph.allResolved
      { g with status := setA g.status A ResStatus.populated } ren) = false := by
    apply Bool.eq_false_iff.mpr
    intro hall
    have hres := (allResolved_iff _ ren).mp hall B (by
      simpa [DependencyGraph.deps] using hBdep)
    simp [DependencyGraph.resolved, lookupA_setA_ne _ _ _ _ hBA, hB] at hres
  have hfilt1 : ren ∉ (g.ownersOf A).filter
      (fun o => DependencyGraph.allResolved
        { g with status := setA g.status A ResStatus.populated } o
          && decide (o ∉ g.readySet)) := by
    intro hmem
    have := List.of_mem_filter hmem
    simp [hnotall] at this
  have hset1 : ren ∉ (g.markPopulated A).readySet := by
    rw [DependencyGraph.markPopulated, markResolved_readySet]
    intro hmem
    rcases List.mem_append.mp hmem with h | h
    · exact hready h
    · exact hfilt1 h
  have hq1 : (g.markPopulated A).readyQueue.count ren = 0 := by
    rw [DependencyGraph.markPopulated, markResolved_readyQueue, List.count_append]
    rw [List.count_eq_zero.mpr hqueue, List.count_eq_zero.mpr hfilt1]
  -- facts about the state after the first mark
  have hg1statusA : lookupA (g.markPopulated A).status A = some ResStatus.populated := by
    rw [DependencyGraph.markPopulated, markResolved_status]
    exact lookupA_setA_self _ _ _
  have hg1statusB : lookupA (g.markPopulated A).status B = some ResStatus.pending := by
    rw [DependencyGraph.markPopulated, markResolved_status,
      lookupA_setA_ne _ _ _ _ hBA]
    exact hB
  -- after the second mark, the owner is fully resolved
  have hall2 : (DependencyGraph.allResolved
      { g.markPopulated A with
        status := setA (g.markPopulated A).status B ResStatus.populated } ren) = true := by
    apply (allResolved_iff _ ren).mpr
    intro x hx
    have hx' : x ∈ g.deps ren := hx
    rcases (hdeps x).mp hx' with hxa | hxb
    · subst hxa
      simp [DependencyGraph.resolved, lookupA_setA_ne _ _ _ _ hAB, hg1statusA]
    · subst hxb
      simp [DependencyGraph.resolved, lookupA_setA_self]
  -- the owner has an edge from B, so it is re-evaluated by the second mark
  have hown : ren ∈ (g.markPopulated A).ownersOf B := by
    rcases (mem_deps g ren B).mp hBdep with ⟨p, hp⟩
    exact (mem_ownersOf _ B ren).mpr ⟨p, hp⟩
  have hfilt2 : ren ∈ ((g.markPopulated A).ownersOf B).filter
      (fun o => DependencyGraph.allResolved
        { g.markPopulated A with
          status := setA (g.markPopulated A).status B ResStatus.populated } o
            && decide (o ∉ (g.markPopulated A).readySet)) :=
    List.mem_filter.mpr ⟨hown, by simp [hall2, hset1]⟩
  have hnodup : (((g.markPopulated A).ownersOf B).filter
      (fun o => DependencyGraph.allResolved
        { g.markPopulated A with
          status := setA (g.markPopulated A).status B ResStatus.populated } o
            && decide (o ∉ (g.markPopulated A).readySet))).Nodup :=
    List.Nodup.filter _ (List.nodup_dedup _)
  refine ⟨hset1, ?_, ?_⟩
  · rw [DependencyGraph.markPopulated, markResolved_readySet]
    exact List.mem_append_right _ hfilt2
  · rw [DependencyGraph.markPopulated, markResolved_readyQueue, List.count_append, hq1]
    simpa using List.count_eq_one_of_mem hnodup hfilt2

/-- C6: a renderable depending on exactly the two texture resources `A` and
`B` becomes ready only after both `markPopulated` calls have occurred, and
the outcome is order-independent: populating `A` then `B`, or `B` then `A`,
both leave the renderable ready, enqueued exactly once, immediately after the
second call. -/
theorem two_texture_order_independence (g : DependencyGraph) (ren : Owner) (A B : Res)
    (hAB : A ≠ B)
    (hdeps : ∀ x, x ∈ g.deps ren ↔ (x = A ∨ x = B))
    (hA : lookupA g.status A = some ResStatus.pending)
    (hB : lookupA g.status B = some ResStatus.pending)
    (hready : ren ∉ g.readySet)
    (hqueue : ren ∉ g.readyQueue) :
    (ren ∉ (g.markPopulated A).readySet)
  ∧ (ren ∉ (g.markPopulated B).readySet)
  ∧ ren ∈ ((g.markPopulated A).markPopulated B).readySet
  ∧ ren ∈ ((g.markPopulated B).markPopulated A).readySet
  ∧ ((g.markPopulated A).markPopulated B).readyQueue.count ren = 1
  ∧ ((g.markPopulated B).markPopulated A).readyQueue.count ren = 1 := by
  have hdeps' : ∀ x, x ∈ g.deps ren ↔ (x = B ∨ x = A) := fun x => (hdeps x).trans or_comm
  obtain ⟨h1, h2, h3⟩ := two_mark_core g ren A B hAB hdeps hB hready hqueue
  obtain ⟨h1', h2', h3'⟩ := two_mark_core g ren B A (Ne.symm hAB) hdeps' hA hready hqueue
  exact ⟨h1, h1', h2, h2', h3, h3'⟩

/-- Witness for C6 on the concrete two-texture graph `gTwoTex`. -/
theorem two_texture_order_independence_witness :
    (7 ∉ (gTwoTex.markPopulated 10).readySet)
  ∧ (7 ∉ (gTwoTex.markPopulated 11).readySet)
  ∧ 7 ∈ ((gTwoTex.markPopulated 10).markPopulated 11).readySet
  ∧ 7 ∈ ((gTwoTex.markPopulated 11).markPopulated 10).readySet
  ∧ ((gTwoTex.markPopulated 10).markPopulated 11).readyQueue.count 7 = 1
  ∧ ((gTwoTex.markPopulated 11).markPopulated 10).readyQueue.count 7 = 1 :=
  two_texture_order_independence gTwoTex 7 10 11 (by decide)
    (by
      intro x
      rw [show gTwoTex.deps 7 = [10, 11] from by decide]
      simp)
    (by decide) (by decide) (by decide) (by decide)

theorem resolved_addEdge (g : DependencyGraph) (r : Res) (o : Owner) (p : String) (x : Res) :
    (g.addEdge r o p).resolved x = g.resolved x := by
  rcases addEdge_status_cases g r o p x with hc | ⟨h1, h2⟩
  · simp [DependencyGraph.resolved, hc]
  · simp [DependencyGraph.resolved, h1, h2]

theorem allResolved_eq_false_iff (g : DependencyGraph) (o : Owner) :
    g.allResolved o = false ↔ ∃ x ∈ g.deps o, g.resolved x = false := by
  constructor
  · intro h
    by_contra hc
    push_neg at hc
    have hall : g.allResolved o = true := (allResolved_iff g o).mpr (fun x hx => by
      rcases Bool.eq_false_or_eq_true (g.resolved x) with h' | h'
      · exact h'
      · exact absurd h' (hc x hx))
    rw [hall] at h
    exact absurd h (by simp)
  · rintro ⟨x, hx, hres⟩
    rcases Bool.eq_false_or_eq_true (g.allResolved o) with h' | h'
    · have := (allResolved_iff g o).mp h' x hx
      rw [hres] at this
      exact absurd this (by simp)
    · exact h'

theorem allResolved_markResolved (g : DependencyGraph) (r : Res) (f : Bool) (o : Owner) :
    (g.markResolved r f).allResolved o =
      DependencyGraph.allResolved
        { g with status := setA g.status r ResStatus.populated } o := rfl

/-- Invariant: an owner is ready, or some resource it depends on is not yet
resolved.  Preserved by `markResolved`. -/
theorem markResolved_ready_or_blocked (g : DependencyGraph) (r : Res) (f : Bool) (ren : Owner)
    (h : ren ∈ g.readySet ∨ g.allResolved ren = false) :
    ren ∈ (g.markResolved r f).readySet ∨ (g.markResolved r f).allResolved ren = false := by
  by_cases hmem : ren ∈ g.readySet
  · left
    rw [markResolved_readySet]
    exact List.mem_append_left _ hmem
  · have hblocked : g.allResolved ren = false := by
      rcases h with h | h
      · exact absurd h hmem
      · exact h
    by_cases hall : DependencyGraph.allResolved
        { g with status := setA g.status r ResStatus.populated } ren = true
    · left
      rw [markResolved_readySet]
      apply List.mem_append_right
      apply List.mem_filter.mpr
      refine ⟨?_, by simp [hall, hmem]⟩
      rcases (allResolved_eq_false_iff g ren).mp hblocked with ⟨d, hd, hres⟩
      have hd' : d ∈ DependencyGraph.deps
          { g with status := setA g.status r ResStatus.populated } ren := hd
      have hres' : DependencyGraph.resolved
          { g with status := setA g.status r ResStatus.populated } d = true :=
        (allResolved_iff _ ren).mp hall d hd'
      have hdr : d = r := by
        by_contra hne
        have heq : DependencyGraph.resolved
            { g with status := setA g.status r ResStatus.populated } d = g.resolved d := by
          simp [DependencyGraph.resolved, lookupA_setA_ne _ _ _ _ hne]
        rw [heq, hres] at hres'
        exact absurd hres' (by simp)
      subst hdr
      rcases (mem_deps g ren d).mp hd with ⟨q, hq⟩
      exact (mem_ownersOf g d ren).mpr ⟨q, hq⟩
    · right
      rw [allResolved_markResolved]
      exact Bool.eq_false_iff.mpr hall

theorem applyOp_ready_or_blocked (g : DependencyGraph) (op : GraphOp) (ren : Owner)
    (h : ren ∈ g.readySet ∨ g.allResolved ren = false) :
    ren ∈ (applyOp g op).1.readySet ∨ (applyOp g op).1.allResolved ren = false := by
  cases op with
  | pop n =>
    rcases h with h | h
    · exact Or.inl h
    · exact Or.inr h
  | addEdge r o p =>
    rcases h with h | h
    · exact Or.inl h
    · right
      rcases (allResolved_eq_false_iff g ren).mp h with ⟨d, hd, hres⟩
      apply (allResolved_eq_false_iff _ ren).mpr
      refine ⟨d, ?_, ?_⟩
      · rcases (mem_deps g ren d).mp hd with ⟨q, hq⟩
        exact (mem_deps _ ren d).mpr ⟨q, List.mem_append_left _ hq⟩
      · show (g.addEdge r o p).resolved d = false
        rw [resolved_addEdge]
        exact hres
  | markPopulated r => exact markResolved_ready_or_blocked g r false ren h
  | markFailed r => exact markResolved_ready_or_blocked g r true ren h

theorem runOps_ready_or_blocked (ops : List GraphOp) (g : DependencyGraph) (ren : Owner)
    (h : ren ∈ g.readySet ∨ g.allResolved ren = false) :
    ren ∈ (runOps g ops).1.readySet ∨ (runOps g ops).1.allResolved ren = false := by
  induction ops generalizing g with
  | nil => simpa [runOps] using h
  | cons op t ih =>
    simp only [runOps]
    exact ih _ (applyOp_ready_or_blocked g op ren h)

theorem onceInv_extend (ren : Owner) (rs q N : List Owner) (c : Nat)
    (hN : ren ∈ N → (N.count ren = 1 ∧ ren ∉ rs))
    (h : OnceInv ren rs q c) : OnceInv ren (rs ++ N) (q ++ N) c := by
  by_cases hrs : ren ∈ rs
  · have hNmem : ren ∉ N := fun hc => (hN hc).2 hrs
    constructor
    · intro _
      rw [List.count_append, List.count_eq_zero.mpr hNmem]
      simpa using h.1 hrs
    · intro hc
      exact absurd (List.mem_append_left _ hrs) hc
  · obtain ⟨hc0, hq0⟩ := h.2 hrs
    by_cases hNmem : ren ∈ N
    · constructor
      · intro _
        rw [List.count_append, hq0, (hN hNmem).1, hc0]
      · intro hc
        exact absurd (List.mem_append_right _ hNmem) hc
    · constructor
      · intro hc
        rcases List.mem_append.mp hc with h' | h'
        · exact absurd h' hrs
        · exact absurd h' hNmem
      · intro _
        exact ⟨hc0, by rw [List.count_append, hq0, List.count_eq_zero.mpr hNmem]⟩

theorem onceInv_pop (ren : Owner) (rs q : List Owner) (c n : Nat)
    (h : OnceInv ren rs q c) :
    OnceInv ren rs (q.drop n) (c + (q.take n).count ren) := by
  have hsplit : q.count ren = (q.take n).count ren + (q.drop n).count ren := by
    conv_lhs => rw [← List.take_append_drop n q]
    exact List.count_append _ _ _
  constructor
  · intro hmem
    have := h.1 hmem
    omega
  · intro hmem
    obtain ⟨hc0, hq0⟩ := h.2 hmem
    rw [hsplit] at hq0
    omega

theorem applyOp_onceInv (g : DependencyGraph) (op : GraphOp) (ren : Owner) (c : Nat)
    (h : OnceInv ren g.readySet g.readyQueue c) :
    OnceInv ren (applyOp g op).1.readySet (applyOp g op).1.readyQueue
      (c + ((applyOp g op).2.count ren)) := by
  cases op with
  | addEdge r o p => simpa using h
  | pop n => simpa using onceInv_pop ren g.readySet g.readyQueue c n h
  | markPopulated r =>
    simp only [applyOp, List.count_nil, Nat.add_zero]
    rw [DependencyGraph.markPopulated, markResolved_readySet, markResolved_readyQueue]
    apply onceInv_extend ren g.readySet g.readyQueue _ c ?_ h
    intro hmem
    refine ⟨List.count_eq_one_of_mem (List.Nodup.filter _ (List.nodup_dedup _)) hmem, ?_⟩
    have := List.of_mem_filter hmem
    simp at this
    exact this.2
  | markFailed r =>
    simp only [applyOp, List.count_nil, Nat.add_zero]
    rw [DependencyGraph.markFailed, markResolved_readySet, markResolved_readyQueue]
    apply onceInv_extend ren g.readySet g.readyQueue _ c ?_ h
    intro hmem
    refine ⟨List.count_eq_one_of_mem (List.Nodup.filter _ (List.nodup_dedup _)) hmem, ?_⟩
    have := List.of_mem_filter hmem
    simp at this
    exact this.2

theorem runOps_onceInv (ops : List GraphOp) (g : DependencyGraph) (ren : Owner) (c : Nat)
    (h : OnceInv ren g.readySet g.readyQueue c) :
    OnceInv ren (runOps g ops).1.readySet (runOps g ops).1.readyQueue
      (c + ((runOps g ops).2.count ren)) := by
  induction ops generalizing g c with
  | nil => simpa [runOps] using h
  | cons op t ih =>
    have h2 := ih (applyOp g op).1 _ (applyOp_onceInv g op ren c h)
    simp only [runOps]
    rw [List.count_append]
    simpa [Nat.add_assoc] using h2

theorem runOps_append (g : DependencyGraph) (xs ys : List GraphOp) :
    runOps g (xs ++ ys) =
      ((runOps (runOps g xs).1 ys).1, (runOps g xs).2 ++ (runOps (runOps g xs).1 ys).2) := by
  induction xs generalizing g with
  | nil => simp [runOps]
  | cons op t ih =>
    simp only [List.cons_append, runOps]
    rw [show t.append ys = t ++ ys from rfl, ih (applyOp g op).1]
    simp [List.append_assoc]

theorem walk_phase (w : List GraphOp) (g : DependencyGraph)
    (hw : ∀ op ∈ w, op.isAddEdge = true)
    (hrs : g.readySet = []) (hq : g.readyQueue = [])
    (hres : ∀ x, g.resolved x = false) :
    (runOps g w).1.readySet = [] ∧ (runOps g w).1.readyQueue = []
      ∧ (∀ x, (runOps g w).1.resolved x = false) ∧ (runOps g w).2 = [] := by
  induction w generalizing g with
  | nil => exact ⟨hrs, hq, hres, rfl⟩
  | cons op t ih =>
    have hop := hw op (List.mem_cons_self op t)
    cases op with
    | addEdge r o p =>
      obtain ⟨a, b, cc, d⟩ := ih (g.addEdge r o p)
        (fun op' h' => hw op' (List.mem_cons_of_mem _ h')) hrs hq
        (fun x => by rw [resolved_addEdge]; exact hres x)
      refine ⟨a, b, cc, ?_⟩
      simp only [runOps, applyOp]
      simpa using d
    | markPopulated r => simp [GraphOp.isAddEdge] at hop
    | markFailed r => simp [GraphOp.isAddEdge] at hop
    | pop n => simp [GraphOp.isAddEdge] at hop

theorem runOps_mark_populates (m : List GraphOp) (g : DependencyGraph) (r : Res)
    (h : GraphOp.markPopulated r ∈ m ∨ GraphOp.markFailed r ∈ m) :
    lookupA (runOps g m).1.status r = some ResStatus.populated := by
  induction m generalizing g with
  | nil =>
    rcases h with h | h <;> exact absurd h (List.not_mem_nil _)
  | cons op t ih =>
    by_cases hop : op = GraphOp.markPopulated r ∨ op = GraphOp.markFailed r
    · have hpop : lookupA (applyOp g op).1.status r = some ResStatus.populated := by
        rcases hop with rfl | rfl
        · simp [applyOp, DependencyGraph.markPopulated, markResolved_status, lookupA_setA_self]
        · simp [applyOp, DependencyGraph.markFailed, markResolved_status, lookupA_setA_self]
      simp only [runOps]
      exact runOps_status_monotone t _ r hpop
    · push_neg at hop
      have h' : GraphOp.markPopulated r ∈ t ∨ GraphOp.markFailed r ∈ t := by
        rcases h with h | h
        · rcases List.mem_cons.mp h with h'' | h''
          · exact absurd h''.symm hop.1
          · exact Or.inl h''
        · rcases List.mem_cons.mp h with h'' | h''
          · exact absurd h''.symm hop.2
          · exact Or.inr h''
      simp only [runOps]
      exact ih _ h'

theorem runOps_edges_no_addEdge (m : List GraphOp) (g : DependencyGraph)
    (hm : ∀ op ∈ m, op.isAddEdge = false) :
    (runOps g m).1.edges = g.edges := by
  induction m generalizing g with
  | nil => rfl
  | cons op t ih =>
    have hop := hm op (List.mem_cons_self op t)
    have he : (applyOp g op).1.edges = g.edges := by
      cases op with
      | addEdge r o p => simp [GraphOp.isAddEdge] at hop
      | markPopulated r => rfl
      | markFailed r => rfl
      | pop n => rfl
    simp only [runOps]
    rw [ih _ (fun op' h' => hm op' (List.mem_cons_of_mem _ h')), he]

theorem deps_eq_of_edges (g g' : DependencyGraph) (o : Owner) (h : g.edges = g'.edges) :
    g.deps o = g'.deps o := by
  simp [DependencyGraph.deps, h]

/-- C7: completeness and exactly-once delivery.  Starting from an empty
graph, a load session runs a graph-walk phase `w` of `addEdge` operations and
then a population phase `m` of `markPopulated`/`markFailed`/`popRenderables`
operations.  If the renderable has at least one registered edge and every
resource it has a registered edge to is marked populated or failed during
`m`, then across the `popRenderables` calls of `m` followed by one final
drain of the remaining ready queue, the renderable is delivered exactly
once. -/
theorem renderable_delivered_exactly_once (w m : List GraphOp) (ren : Owner)
    (hw : ∀ op ∈ w, op.isAddEdge = true)
    (hm : ∀ op ∈ m, op.isAddEdge = false)
    (hne : (runOps DependencyGraph.empty w).1.deps ren ≠ [])
    (hcov : ∀ r ∈ (runOps DependencyGraph.empty w).1.deps ren,
        GraphOp.markPopulated r ∈ m ∨ GraphOp.markFailed r ∈ m) :
    (runOps DependencyGraph.empty
        (w ++ (m ++ [GraphOp.pop
          (runOps (runOps DependencyGraph.empty w).1 m).1.readyQueue.length]))).2.count ren
      = 1 := by
  obtain ⟨hrs1, hq1, hresolved1, hout1⟩ := walk_phase w DependencyGraph.empty hw rfl rfl
    (fun x => rfl)
  have hP1 : ren ∈ (runOps DependencyGraph.empty w).1.readySet ∨
      (runOps DependencyGraph.empty w).1.allResolved ren = false := by
    right
    apply (allResolved_eq_false_iff _ ren).mpr
    cases hd : (runOps DependencyGraph.empty w).1.deps ren with
    | nil => exact absurd hd hne
    | cons d t =>
      exact ⟨d, List.mem_cons_self d t, hresolved1 d⟩
  have hP2 := runOps_ready_or_blocked m _ ren hP1
  have hedges2 := runOps_edges_no_addEdge m (runOps DependencyGraph.empty w).1 hm
  have hdeps2 : (runOps (runOps DependencyGraph.empty w).1 m).1.deps ren
      = (runOps DependencyGraph.empty w).1.deps ren := deps_eq_of_edges _ _ ren hedges2
  have hall2 : (runOps (runOps DependencyGraph.empty w).1 m).1.allResolved ren = true := by
    apply (allResolved_iff _ ren).mpr
    intro x hx
    rw [hdeps2] at hx
    have hmark := runOps_mark_populates m (runOps DependencyGraph.empty w).1 x (hcov x hx)
    simp [DependencyGraph.resolved, hmark]
  have hready2 : ren ∈ (runOps (runOps DependencyGraph.empty w).1 m).1.readySet := by
    rcases hP2 with h | h
    · exact h
    · rw [hall2] at h
      exact absurd h (by simp)
  have hinv1 : OnceInv ren (runOps DependencyGraph.empty w).1.readySet
      (runOps DependencyGraph.empty w).1.readyQueue 0 := by
    rw [hrs1, hq1]
    exact ⟨fun h => absurd h (List.not_mem_nil ren), fun _ => ⟨rfl, rfl⟩⟩
  have hinv2 := runOps_onceInv m _ ren 0 hinv1
  have hcount2 : (runOps (runOps DependencyGraph.empty w).1 m).2.count ren
      + (runOps (runOps DependencyGraph.empty w).1 m).1.readyQueue.count ren = 1 := by
    simpa using hinv2.1 hready2
  rw [runOps_append, runOps_append]
  simp only [hout1, List.nil_append, List.count_append]
  rw [show (runOps (runOps (runOps DependencyGraph.empty w).1 m).1
      [GraphOp.pop (runOps (runOps DependencyGraph.empty w).1 m).1.readyQueue.length]).2
        = (runOps (runOps DependencyGraph.empty w).1 m).1.readyQueue from by
    simp [runOps, applyOp, DependencyGraph.popRenderables, List.take_length]]
  exact hcount2

/-- Witness for C7: renderable 7 depends on the resources 0 and 1 registered
during the walk `wDeliver`; the population phase `mDeliver` populates 0,
drains, and marks 1 failed; the final drain delivers renderable 7 exactly
once overall. -/
theorem renderable_delivered_exactly_once_witness :
    (runOps DependencyGraph.empty
        (wDeliver ++ (mDeliver ++ [GraphOp.pop
          (runOps (runOps DependencyGraph.empty wDeliver).1
            mDeliver).1.readyQueue.length]))).2.count 7 = 1 :=
  renderable_delivered_exactly_once wDeliver mDeliver 7
    (by decide) (by decide) (by decide) (by decide)

theorem meshGetOrCreate_caches (doc : Nat → MeshDef) (st : MeshLoadState) (mesh : Nat) :
    lookupA (meshGetOrCreate doc st mesh).2.mMeshCache mesh
      = some (meshGetOrCreate doc st mesh).1 := by
  cases h : lookupA st.mMeshCache mesh with
  | some prims => simp [meshGetOrCreate, h]
  | none =>
    simp only [meshGetOrCreate, h]
    rw [lookupA_append_none _ _ _ h]
    simp [lookupA]

theorem meshGetOrCreate_preserves (doc : Nat → MeshDef) (st : MeshLoadState) (mesh k : Nat)
    (v : List Primitive) (h : lookupA st.mMeshCache k = some v) :
    lookupA (meshGetOrCreate doc st mesh).2.mMeshCache k = some v := by
  cases hm : lookupA st.mMeshCache mesh with
  | some prims => simpa [meshGetOrCreate, hm] using h
  | none =>
    simp only [meshGetOrCreate, hm]
    exact lookupA_append_some _ _ _ _ h

theorem loadMeshes_preserves (doc : Nat → MeshDef) (keys : List Nat) (st : MeshLoadState)
    (k : Nat) (v : List Primitive) (h : lookupA st.mMeshCache k = some v) :
    lookupA (loadMeshes doc st keys).2.mMeshCache k = some v := by
  induction keys generalizing st with
  | nil => simpa [loadMeshes] using h
  | cons m t ih =>
    simp only [loadMeshes]
    exact ih _ (meshGetOrCreate_preserves doc st m k v h)

theorem loadMeshes_length (doc : Nat → MeshDef) (keys : List Nat) (st : MeshLoadState) :
    (loadMeshes doc st keys).1.length = keys.length := by
  induction keys generalizing st with
  | nil => simp [loadMeshes]
  | cons m t ih => simp [loadMeshes, ih]

theorem loadMeshes_result_lookup (doc : Nat → MeshDef) (keys : List Nat) (st : MeshLoadState)
    (i k : Nat) (hk : keys.get? i = some k) :
    ∃ ps, (loadMeshes doc st keys).1.get? i = some ps ∧
      lookupA (loadMeshes doc st keys).2.mMeshCache k = some ps := by
  induction keys generalizing st i with
  | nil => simp [List.get?] at hk
  | cons m t ih =>
    cases i with
    | zero =>
      rw [List.get?_cons_zero] at hk
      injection hk with hk
      subst hk
      refine ⟨(meshGetOrCreate doc st m).1, by simp [loadMeshes], ?_⟩
      simp only [loadMeshes]
      exact loadMeshes_preserves doc t _ m _ (meshGetOrCreate_caches doc st m)
    | succ j =>
      rw [List.get?_cons_succ] at hk
      obtain ⟨ps, h1, h2⟩ := ih (meshGetOrCreate doc st m).2 j hk
      exact ⟨ps, by simpa [loadMeshes] using h1, h2⟩

theorem meshGetOrCreate_keys_invariant (doc : Nat → MeshDef) (st : MeshLoadState) (mesh : Nat)
    (hnd : (st.mMeshCache.map Prod.fst).Nodup) :
    ((meshGetOrCreate doc st mesh).2.mMeshCache.map Prod.fst).Nodup ∧
      ∀ x, x ∈ (meshGetOrCreate doc st mesh).2.mMeshCache.map Prod.fst →
        (x ∈ st.mMeshCache.map Prod.fst ∨ x = mesh) := by
  cases hm : lookupA st.mMeshCache mesh with
  | some prims =>
    simp only [meshGetOrCreate, hm]
    exact ⟨hnd, fun x hx => Or.inl hx⟩
  | none =>
    have hnotmem := lookupA_none_not_mem_fst _ _ hm
    simp only [meshGetOrCreate, hm, List.map_append, List.map_cons, List.map_nil]
    constructor
    · rw [List.nodup_append]
      exact ⟨hnd, List.nodup_singleton mesh, by
        intro x hx hx'
        rw [List.mem_singleton] at hx'
        subst hx'
        exact hnotmem hx⟩
    · intro x hx
      rcases List.mem_append.mp hx with h | h
      · exact Or.inl h
      · exact Or.inr (List.mem_singleton.mp h)

theorem loadMeshes_keys_invariant (doc : Nat → MeshDef) (keys : List Nat) (st : MeshLoadState)
    (hnd : (st.mMeshCache.map Prod.fst).Nodup) :
    (((loadMeshes doc st keys).2.mMeshCache.map Prod.fst).Nodup) ∧
      ∀ x, x ∈ (loadMeshes doc st keys).2.mMeshCache.map Prod.fst →
        (x ∈ st.mMeshCache.map Prod.fst ∨ x ∈ keys) := by
  induction keys generalizing st with
  | nil => exact ⟨hnd, fun x hx => Or.inl hx⟩
  | cons m t ih =>
    obtain ⟨h1, h2⟩ := meshGetOrCreate_keys_invariant doc st m hnd
    obtain ⟨h3, h4⟩ := ih (meshGetOrCreate doc st m).2 h1
    refine ⟨h3, fun x hx => ?_⟩
    rcases h4 x hx with h | h
    · rcases h2 x h with h' | h'
      · exact Or.inl h'
      · exact Or.inr (by simp [h'])
    · exact Or.inr (List.mem_cons_of_mem _ h)

theorem nodup_subset_length_le (l l' : List Nat) (hnd : l.Nodup) (hsub : ∀ x ∈ l, x ∈ l') :
    l.length ≤ l'.dedup.length := by
  have h1 : l.toFinset.card = l.length := List.toFinset_card_of_nodup hnd
  have h2 : l.toFinset ⊆ l'.toFinset := by
    intro x hx
    rw [List.mem_toFinset] at hx ⊢
    exact hsub x hx
  have h3 : l'.toFinset.card = l'.dedup.length := List.card_toFinset l'
  calc l.length = l.toFinset.card := h1.symm
    _ ≤ l'.toFinset.card := Finset.card_le_card h2
    _ = l'.dedup.length := h3

theorem createPrimitives_length (d : MeshDef) (n : Nat) :
    (createPrimitives d n).1.length = d.length := by
  induction d generalizing n with
  | nil => simp [createPrimitives]
  | cons sp t ih => simp [createPrimitives, ih]

theorem createPrimitives_get (d : MeshDef) (n i : Nat) (sp : SubPrimDef)
    (h : d.get? i = some sp) :
    ∃ p, (createPrimitives d n).1.get? i = some p ∧
      p.indices.isSome = sp.indexed ∧ p.aabb = sp.aabb ∧ p.uvmap = sp.uvmap := by
  induction d generalizing n i with
  | nil => simp [List.get?] at h
  | cons sp0 t ih =>
    cases i with
    | zero =>
      rw [List.get?_cons_zero] at h
      injection h with h
      subst h
      refine ⟨⟨n, if sp0.indexed then some (n + 1) else none, sp0.aabb, sp0.uvmap⟩,
        by simp [createPrimitives], ?_, rfl, rfl⟩
      cases hi : sp0.indexed <;> simp [hi]
    | succ j =>
      rw [List.get?_cons_succ] at h
      obtain ⟨p, h1, h2⟩ := ih (if sp0.indexed then n + 2 else n + 1) j h
      exact ⟨p, by simpa [createPrimitives] using h1, h2⟩

theorem meshGetOrCreate_content (doc : Nat → MeshDef) (st : MeshLoadState) (mesh : Nat)
    (hc : ∀ kv ∈ st.mMeshCache, ∃ n, kv.2 = (createPrimitives (doc kv.1) n).1) :
    ∀ kv ∈ (meshGetOrCreate doc st mesh).2.mMeshCache,
      ∃ n, kv.2 = (createPrimitives (doc kv.1) n).1 := by
  cases hm : lookupA st.mMeshCache mesh with
  | some prims => simpa [meshGetOrCreate, hm] using hc
  | none =>
    intro kv hkv
    simp only [meshGetOrCreate, hm] at hkv
    rcases List.mem_append.mp hkv with h | h
    · exact hc kv h
    · rw [List.mem_singleton] at h
      subst h
      exact ⟨st.nextHandle, rfl⟩

theorem loadMeshes_content (doc : Nat → MeshDef) (keys : List Nat) (st : MeshLoadState)
    (hc : ∀ kv ∈ st.mMeshCache, ∃ n, kv.2 = (createPrimitives (doc kv.1) n).1) :
    ∀ kv ∈ (loadMeshes doc st keys).2.mMeshCache,
      ∃ n, kv.2 = (createPrimitives (doc kv.1) n).1 := by
  induction keys generalizing st with
  | nil => simpa [loadMeshes] using hc
  | cons m t ih =>
    simp only [loadMeshes]
    exact ih _ (meshGetOrCreate_content doc st m hc)

/-- C1: in one load session the MeshCache deduplicates mesh definitions.  Two
nodes referencing the same mesh definition receive the same primitive list —
hence the same VertexBuffer and IndexBuffer handles — the cache never holds
more entries than distinct mesh definitions referenced, and each primitive
list has one primitive per source sub-primitive, in source sub-primitive
order. -/
theorem meshCache_shares_buffers (doc : Nat → MeshDef) (keys : List Nat) :
    (∀ i j, keys.get? i = keys.get? j →
        (loadMeshes doc ⟨[], 0⟩ keys).1.get? i = (loadMeshes doc ⟨[], 0⟩ keys).1.get? j)
  ∧ (loadMeshes doc ⟨[], 0⟩ keys).2.mMeshCache.length ≤ keys.dedup.length
  ∧ (∀ i k, keys.get? i = some k →
      ∃ ps, (loadMeshes doc ⟨[], 0⟩ keys).1.get? i = some ps ∧
        ps.length = (doc k).length ∧
        ∀ n sp, (doc k).get? n = some sp →
          ∃ p, ps.get? n = some p ∧
            p.indices.isSome = sp.indexed ∧ p.aabb = sp.aabb ∧ p.uvmap = sp.uvmap) := by
  refine ⟨?_, ?_, ?_⟩
  · intro i j hij
    cases hk : keys.get? i with
    | some k =>
      obtain ⟨ps, hri, hci⟩ := loadMeshes_result_lookup doc keys ⟨[], 0⟩ i k hk
      obtain ⟨ps', hrj, hcj⟩ := loadMeshes_result_lookup doc keys ⟨[], 0⟩ j k (hij ▸ hk)
      rw [hci] at hcj
      rw [hri, hrj, Option.some_inj.mp hcj]
    | none =>
      have hkj : keys.get? j = none := hij ▸ hk
      have hi : keys.length ≤ i := List.get?_eq_none.mp hk
      have hj : keys.length ≤ j := List.get?_eq_none.mp hkj
      rw [List.get?_eq_none.mpr (by rw [loadMeshes_length]; exact hi),
        List.get?_eq_none.mpr (by rw [loadMeshes_length]; exact hj)]
  · obtain ⟨hnd, hsub⟩ := loadMeshes_keys_invariant doc keys ⟨[], 0⟩ (by simp)
    have hlen : (loadMeshes doc ⟨[], 0⟩ keys).2.mMeshCache.length
        = ((loadMeshes doc ⟨[], 0⟩ keys).2.mMeshCache.map Prod.fst).length :=
      (List.length_map _ _).symm
    rw [hlen]
    refine nodup_subset_length_le _ keys hnd (fun x hx => ?_)
    rcases hsub x hx with h | h
    · simp at h
    · exact h
  · intro i k hk
    obtain ⟨ps, hri, hci⟩ := loadMeshes_result_lookup doc keys ⟨[], 0⟩ i k hk
    have hmem := lookupA_mem _ _ _ hci
    obtain ⟨n, hn⟩ := loadMeshes_content doc keys ⟨[], 0⟩ (by simp) (k, ps) hmem
    simp only at hn
    refine ⟨ps, hri, ?_, ?_⟩
    · rw [hn, createPrimitives_length]
    · intro j sp hsp
      rw [hn]
      exact createPrimitives_get (doc k) n j sp hsp

/-- Witness for C1: a document in which mesh 5 is referenced by both nodes;
both renderables receive the same primitive list and the cache has a single
entry. -/
theorem meshCache_shares_buffers_witness :
    (loadMeshes docMesh ⟨[], 0⟩ [5, 5]).1.get? 0 = (loadMeshes docMesh ⟨[], 0⟩ [5, 5]).1.get? 1
  ∧ (loadMeshes docMesh ⟨[], 0⟩ [5, 5]).2.mMeshCache.length ≤ ([5, 5] : List Nat).dedup.length :=
  ⟨(meshCache_shares_buffers docMesh [5, 5]).1 0 1 rfl,
   (meshCache_shares_buffers docMesh [5, 5]).2.1⟩

theorem matGetOrCreate_caches (uvOf : Int → List Nat) (st : MatLoadState) (key : Int) :
    lookupA (matGetOrCreate uvOf st key).2.mMatInstanceCache key
      = some (matGetOrCreate uvOf st key).1 := by
  cases h : lookupA st.mMatInstanceCache key with
  | some e => simp [matGetOrCreate, h]
  | none =>
    simp only [matGetOrCreate, h]
    rw [lookupA_append_none _ _ _ h]
    simp [lookupA]

theorem matGetOrCreate_preserves (uvOf : Int → List Nat) (st : MatLoadState) (key k : Int)
    (v : MaterialEntry) (h : lookupA st.mMatInstanceCache k = some v) :
    lookupA (matGetOrCreate uvOf st key).2.mMatInstanceCache k = some v := by
  cases hm : lookupA st.mMatInstanceCache key with
  | some e => simpa [matGetOrCreate, hm] using h
  | none =>
    simp only [matGetOrCreate, hm]
    exact lookupA_append_some _ _ _ _ h

theorem loadMaterials_preserves (uvOf : Int → List Nat) (keys : List Int) (st : MatLoadState)
    (k : Int) (v : MaterialEntry) (h : lookupA st.mMatInstanceCache k = some v) :
    lookupA (loadMaterials uvOf st keys).2.mMatInstanceCache k = some v := by
  induction keys generalizing st with
  | nil => simpa [loadMaterials] using h
  | cons m t ih =>
    simp only [loadMaterials]
    exact ih _ (matGetOrCreate_preserves uvOf st m k v h)

theorem loadMaterials_length (uvOf : Int → List Nat) (keys : List Int) (st : MatLoadState) :
    (loadMaterials uvOf st keys).1.length = keys.length := by
  induction keys generalizing st with
  | nil => simp [loadMaterials]
  | cons m t ih => simp [loadMaterials, ih]

theorem loadMaterials_result_lookup (uvOf : Int → List Nat) (keys : List Int)
    (st : MatLoadState) (i : Nat) (k : Int) (hk : keys.get? i = some k) :
    ∃ e, (loadMaterials uvOf st keys).1.get? i = some e ∧
      lookupA (loadMaterials uvOf st keys).2.mMatInstanceCache k = some e := by
  induction keys generalizing st i with
  | nil => simp [List.get?] at hk
  | cons m t ih =>
    cases i with
    | zero =>
      rw [List.get?_cons_zero] at hk
      injection hk with hk
      subst hk
      refine ⟨(matGetOrCreate uvOf st m).1, by simp [loadMaterials], ?_⟩
      simp only [loadMaterials]
      exact loadMaterials_preserves uvOf t _ m _ (matGetOrCreate_caches uvOf st m)
    | succ j =>
      rw [List.get?_cons_succ] at hk
      obtain ⟨e, h1, h2⟩ := ih (matGetOrCreate uvOf st m).2 j hk
      exact ⟨e, by simpa [loadMaterials] using h1, h2⟩

theorem matGetOrCreate_invariant (uvOf : Int → List Nat) (st : MatLoadState) (key : Int)
    (hnd : (st.mMatInstanceCache.map Prod.fst).Nodup)
    (hinst : (st.mMatInstanceCache.map (fun kv => kv.2.matInstance)).Nodup)
    (hbound : ∀ kv ∈ st.mMatInstanceCache, kv.2.matInstance < st.nextInstance) :
    ((matGetOrCreate uvOf st key).2.mMatInstanceCache.map Prod.fst).Nodup
  ∧ ((matGetOrCreate uvOf st key).2.mMatInstanceCache.map (fun kv => kv.2.matInstance)).Nodup
  ∧ (∀ kv ∈ (matGetOrCreate uvOf st key).2.mMatInstanceCache,
      kv.2.matInstance < (matGetOrCreate uvOf st key).2.nextInstance)
  ∧ (∀ x, x ∈ (matGetOrCreate uvOf st key).2.mMatInstanceCache.map Prod.fst →
      (x ∈ st.mMatInstanceCache.map Prod.fst ∨ x = key)) := by
  cases hm : lookupA st.mMatInstanceCache key with
  | some e =>
    simp only [matGetOrCreate, hm]
    exact ⟨hnd, hinst, hbound, fun x hx => Or.inl hx⟩
  | none =>
    have hnotmem := lookupA_none_not_mem_fst _ _ hm
    simp only [matGetOrCreate, hm, List.map_append, List.map_cons, List.map_nil]
    refine ⟨?_, ?_, ?_, ?_⟩
    · rw [List.nodup_append]
      exact ⟨hnd, List.nodup_singleton key, by
        intro x hx hx'
        rw [List.mem_singleton] at hx'
        subst hx'
        exact hnotmem hx⟩
    · rw [List.nodup_append]
      refine ⟨hinst, List.nodup_singleton _, ?_⟩
      intro x hx hx'
      rw [List.mem_singleton] at hx'
      subst hx'
      rcases List.mem_map.mp hx with ⟨kv, hkv, hkv'⟩
      exact absurd hkv' (Nat.ne_of_lt (hbound kv hkv))
    · intro kv hkv
      rcases List.mem_append.mp hkv with h | h
      · exact Nat.lt_succ_of_lt (hbound kv h)
      · rw [List.mem_singleton] at h
        subst h
        exact Nat.lt_succ_self _
    · intro x hx
      rcases List.mem_append.mp hx with h | h
      · exact Or.inl h
      · exact Or.inr (List.mem_singleton.mp h)

theorem loadMaterials_invariant (uvOf : Int → List Nat) (keys : List Int) (st : MatLoadState)
    (hnd : (st.mMatInstanceCache.map Prod.fst).Nodup)
    (hinst : (st.mMatInstanceCache.map (fun kv => kv.2.matInstance)).Nodup)
    (hbound : ∀ kv ∈ st.mMatInstanceCache, kv.2.matInstance < st.nextInstance) :
    ((loadMaterials uvOf st keys).2.mMatInstanceCache.map Prod.fst).Nodup
  ∧ ((loadMaterials uvOf st keys).2.mMatInstanceCache.map (fun kv => kv.2.matInstance)).Nodup
  ∧ (∀ x, x ∈ (loadMaterials uvOf st keys).2.mMatInstanceCache.map Prod.fst →
      (x ∈ st.mMatInstanceCache.map Prod.fst ∨ x ∈ keys)) := by
  induction keys generalizing st with
  | nil => exact ⟨hnd, hinst, fun x hx => Or.inl hx⟩
  | cons m t ih =>
    obtain ⟨h1, h2, h3, h4⟩ := matGetOrCreate_invariant uvOf st m hnd hinst hbound
    obtain ⟨h5, h6, h7⟩ := ih (matGetOrCreate uvOf st m).2 h1 h2 h3
    refine ⟨h5, h6, fun x hx => ?_⟩
    rcases h7 x hx with h | h
    · rcases h4 x h with h' | h'
      · exact Or.inl h'
      · exact Or.inr (by simp [h'])
    · exact Or.inr (List.mem_cons_of_mem _ h)

theorem loadMaterials_mem_cache (uvOf : Int → List Nat) (keys : List Int) (k : Int) :
    (∃ e, lookupA (loadMaterials uvOf ⟨[], 0⟩ keys).2.mMatInstanceCache k = some e)
      ↔ k ∈ keys := by
  constructor
  · rintro ⟨e, he⟩
    have hmem := lookupA_mem _ _ _ he
    have hx : k ∈ (loadMaterials uvOf ⟨[], 0⟩ keys).2.mMatInstanceCache.map Prod.fst :=
      List.mem_map.mpr ⟨(k, e), hmem, rfl⟩
    obtain ⟨_, _, hsub⟩ := loadMaterials_invariant uvOf keys ⟨[], 0⟩ (by simp) (by simp)
      (by simp)
    rcases hsub k hx with h | h
    · simp at h
    · exact h
  · intro hmem
    obtain ⟨i, hi⟩ := List.get?_of_mem hmem
    obtain ⟨e, _, he⟩ := loadMaterials_result_lookup uvOf keys ⟨[], 0⟩ i k hi
    exact ⟨e, he⟩

/-- C2: in one load session the MatInstanceCache deduplicates material
definitions.  Two primitives referencing the same material definition receive
the same MaterialInstance handle and UvMap; there is exactly one cache entry
per distinct referenced material key (including the null/default material,
key 0, which is an ordinary distinct key), and distinct material keys receive
distinct MaterialInstance handles. -/
theorem matCache_shares_instances (uvOf : Int → List Nat) (keys : List Int) :
    (∀ i j, keys.get? i = keys.get? j →
        (loadMaterials uvOf ⟨[], 0⟩ keys).1.get? i
          = (loadMaterials uvOf ⟨[], 0⟩ keys).1.get? j)
  ∧ (∀ k : Int,
      (∃ e, lookupA (loadMaterials uvOf ⟨[], 0⟩ keys).2.mMatInstanceCache k = some e)
        ↔ k ∈ keys)
  ∧ (loadMaterials uvOf ⟨[], 0⟩ keys).2.mMatInstanceCache.length ≤ keys.dedup.length
  ∧ (∀ k k' e e',
      lookupA (loadMaterials uvOf ⟨[], 0⟩ keys).2.mMatInstanceCache k = some e →
      lookupA (loadMaterials uvOf ⟨[], 0⟩ keys).2.mMatInstanceCache k' = some e' →
      k ≠ k' → e.matInstance ≠ e'.matInstance) := by
  refine ⟨?_, loadMaterials_mem_cache uvOf keys, ?_, ?_⟩
  · intro i j hij
    cases hk : keys.get? i with
    | some k =>
      obtain ⟨e, hri, hci⟩ := loadMaterials_result_lookup uvOf keys ⟨[], 0⟩ i k hk
      obtain ⟨e', hrj, hcj⟩ := loadMaterials_result_lookup uvOf keys ⟨[], 0⟩ j k (hij ▸ hk)
      rw [hci] at hcj
      rw [hri, hrj, Option.some_inj.mp hcj]
    | none =>
      have hkj : keys.get? j = none := hij ▸ hk
      have hi : keys.length ≤ i := List.get?_eq_none.mp hk
      have hj : keys.length ≤ j := List.get?_eq_none.mp hkj
      rw [List.get?_eq_none.mpr (by rw [loadMaterials_length]; exact hi),
        List.get?_eq_none.mpr (by rw [loadMaterials_length]; exact hj)]
  · obtain ⟨hnd, _, hsub⟩ := loadMaterials_invariant uvOf keys ⟨[], 0⟩ (by simp) (by simp)
      (by simp)
    have hlen : (loadMaterials uvOf ⟨[], 0⟩ keys).2.mMatInstanceCache.length
        = ((loadMaterials uvOf ⟨[], 0⟩ keys).2.mMatInstanceCache.map Prod.fst).length :=
      (List.length_map _ _).symm
    rw [hlen]
    have h1 : ((loadMaterials uvOf ⟨[], 0⟩ keys).2.mMatInstanceCache.map Prod.fst).toFinset.card
        = ((loadMaterials uvOf ⟨[], 0⟩ keys).2.mMatInstanceCache.map Prod.fst).length :=
      List.toFinset_card_of_nodup hnd
    have h2 : ((loadMaterials uvOf ⟨[], 0⟩ keys).2.mMatInstanceCache.map Prod.fst).toFinset
        ⊆ keys.toFinset := by
      intro x hx
      rw [List.mem_toFinset] at hx ⊢
      rcases hsub x hx with h | h
      · simp at h
      · exact h
    calc ((loadMaterials uvOf ⟨[], 0⟩ keys).2.mMatInstanceCache.map Prod.fst).length
        = ((loadMaterials uvOf ⟨[], 0⟩ keys).2.mMatInstanceCache.map Prod.fst).toFinset.card :=
          h1.symm
      _ ≤ keys.toFinset.card := Finset.card_le_card h2
      _ = keys.dedup.length := List.card_toFinset keys
  · intro k k' e e' hk hk' hne heq
    obtain ⟨_, hinst, _⟩ := loadMaterials_invariant uvOf keys ⟨[], 0⟩ (by simp) (by simp)
      (by simp)
    have hmem := lookupA_mem _ _ _ hk
    have hmem' := lookupA_mem _ _ _ hk'
    have := List.inj_on_of_nodup_map hinst hmem hmem' heq
    rw [Prod.mk.injEq] at this
    exact hne this.1

/-- Witness for C2: the null/default material (key 0) and material 3 are each
referenced twice; the two references to each key share one entry, the cache
holds one entry per distinct key including key 0, and the two keys receive
distinct instances. -/
theorem matCache_shares_instances_witness :
    ((loadMaterials uvExample ⟨[], 0⟩ [0, 3, 0, 3]).1.get? 0
        = (loadMaterials uvExample ⟨[], 0⟩ [0, 3, 0, 3]).1.get? 2)
  ∧ ((∃ e, lookupA (loadMaterials uvExample ⟨[], 0⟩ [0, 3, 0, 3]).2.mMatInstanceCache 0
        = some e) ↔ (0 : Int) ∈ ([0, 3, 0, 3] : List Int))
  ∧ (loadMaterials uvExample ⟨[], 0⟩ [0, 3, 0, 3]).2.mMatInstanceCache.length
      ≤ ([0, 3, 0, 3] : List Int).dedup.length :=
  ⟨(matCache_shares_instances uvExample [0, 3, 0, 3]).1 0 2 rfl,
   (matCache_shares_instances uvExample [0, 3, 0, 3]).2.1 0,
   (matCache_shares_instances uvExample [0, 3, 0, 3]).2.2.1⟩

/-- C4: `bindTexture(tb, texture)` both sets the engine-level material
parameter (the (tb.materialInstance, tb.materialParameter) binding becomes
(texture, tb.sampler)) and registers the dependency edge
(texture, tb.materialInstance, tb.materialParameter) in the DependencyGraph,
and it factors as the parameter set followed by the edge registration, so the
parameter set happens before the edge registration and the edge is registered
no later than the bind call itself. -/
theorem bindTexture_sets_and_registers (a : AssetBindState) (tb : TextureSlot) (texture : Nat) :
    lookupA (bindTexture a tb texture).params (tb.materialInstance, tb.materialParameter)
      = some (texture, tb.sampler)
  ∧ (texture, tb.materialInstance, tb.materialParameter)
      ∈ (bindTexture a tb texture).graph.edges
  ∧ bindTexture a tb texture = addEdgeStep (setParamStep a tb texture) tb texture := by
  refine ⟨lookupA_setA_self _ _ _, ?_, rfl⟩
  show (texture, tb.materialInstance, tb.materialParameter)
    ∈ a.graph.edges ++ [(texture, tb.materialInstance, tb.materialParameter)]
  exact List.mem_append_right _ (List.mem_singleton.mpr rfl)

theorem opt_list_getter_spec (l : List Nat) :
    ((if l.isEmpty then none else some l) = none ↔ l.length = 0)
  ∧ ∀ l', (if l.isEmpty then none else some l) = some l' → l'.length = l.length := by
  cases h : l.isEmpty with
  | true =>
    have hl : l = [] := List.isEmpty_iff.mp h
    subst hl
    exact ⟨by simp, by simp⟩
  | false =>
    have hl : l ≠ [] := by
      intro hc
      subst hc
      simp at h
    constructor
    · simp only [h, Bool.false_eq_true, if_false]
      constructor
      · intro hc
        exact absurd hc (by simp)
      · intro hc
        exact absurd (List.length_eq_zero.mp hc) hl
    · intro l' h'
      simp only [h, Bool.false_eq_true, if_false] at h'
      rw [← Option.some_inj.mp h']

/-- C9: each entity getter returns a null pointer exactly when the
corresponding entity list is empty (its count getter returns 0), and
otherwise a pointer to exactly that many entities. -/
theorem entity_getters_null_iff_empty (a : FAssetEntities) :
    (getEntities a = none ↔ getEntityCount a = 0)
  ∧ (∀ l, getEntities a = some l → l.length = getEntityCount a)
  ∧ (getLightEntities a = none ↔ getLightEntityCount a = 0)
  ∧ (∀ l, getLightEntities a = some l → l.length = getLightEntityCount a)
  ∧ (getCameraEntities a = none ↔ getCameraEntityCount a = 0)
  ∧ (∀ l, getCameraEntities a = some l → l.length = getCameraEntityCount a) :=
  ⟨(opt_list_getter_spec a.mEntities).1, (opt_list_getter_spec a.mEntities).2,
   (opt_list_getter_spec a.mLightEntities).1, (opt_list_getter_spec a.mLightEntities).2,
   (opt_list_getter_spec a.mCameraEntities).1, (opt_list_getter_spec a.mCameraEntities).2⟩

/-- Witness for C9 on an asset with no entities, one light entity, and two
camera entities. -/
theorem entity_getters_null_iff_empty_witness :
    (getEntities (⟨[], [4], [5, 6]⟩ : FAssetEntities) = none ↔
        getEntityCount (⟨[], [4], [5, 6]⟩ : FAssetEntities) = 0)
  ∧ ([4] : List Nat).length = getLightEntityCount (⟨[], [4], [5, 6]⟩ : FAssetEntities)
  ∧ ([5, 6] : List Nat).length = getCameraEntityCount (⟨[], [4], [5, 6]⟩ : FAssetEntities) :=
  ⟨(entity_getters_null_iff_empty ⟨[], [4], [5, 6]⟩).1,
   (entity_getters_null_iff_empty ⟨[], [4], [5, 6]⟩).2.2.2.1 [4] (by decide),
   (entity_getters_null_iff_empty ⟨[], [4], [5, 6]⟩).2.2.2.2.2 [5, 6] (by decide)⟩

/-- C10: `getSourceAsset` never returns a dangling pointer: while the asset
holds its reference-counted source handle it returns the parsed hierarchy
pointer, and after `releaseSourceData` (any positive number of releases, in
any ordering with the pure `getSourceAsset` reads) it returns the null
pointer. -/
theorem getSourceAsset_no_dangling (a : AssetSourceState) (s : SourceAsset) (n : Nat)
    (h : a.mSourceAsset = some s) :
    getSourceAsset a = some s.hierarchy
  ∧ getSourceAsset (releaseSourceData a) = none
  ∧ (0 < n → getSourceAsset (releaseSourceData^[n] a) = none) := by
  refine ⟨by simp [getSourceAsset, h], rfl, ?_⟩
  intro hn
  cases n with
  | zero => exact absurd hn (by simp)
  | succ k =>
    rw [Function.iterate_succ_apply']
    rfl

/-- Witness for C10: an asset holding hierarchy 42, released three times. -/
theorem getSourceAsset_no_dangling_witness :
    getSourceAsset ⟨some ⟨42⟩⟩ = some 42
  ∧ getSourceAsset (releaseSourceData ⟨some ⟨42⟩⟩) = none
  ∧ (0 < 3 → getSourceAsset (releaseSourceData^[3] ⟨some ⟨42⟩⟩) = none) :=
  getSourceAsset_no_dangling ⟨some ⟨42⟩⟩ ⟨42⟩ 3 rfl

end Gltfio
